import Mathlib

/-!
Verification of the `volume` crate: bounded three-dimensional containers.

The Rust sources are shallowly embedded below.  `i64` values are modelled as
`ℤ`, `usize` indices as `ℕ` (a cast from `i64` to `usize` succeeds exactly
when the value is non-negative, matching 64-bit targets), boxed nested slices
as nested `List`s, and fallible operations as `Option` / `Except`.
-/

/-- A triplet of `i64` components, modelling `[i64; 3]`. -/
structure V3 where
  x : ℤ
  y : ℤ
  z : ℤ
deriving DecidableEq, Repr

/-- Componentwise addition, modelling `util::sum_ivec3`. -/
def vadd (lhs rhs : V3) : V3 :=
  ⟨lhs.x + rhs.x, lhs.y + rhs.y, lhs.z + rhs.z⟩

/-- Componentwise subtraction, modelling `util::sub_ivec3`. -/
def vsub (lhs : V3) (rhs : V3) : V3 :=
  ⟨lhs.x - rhs.x, lhs.y - rhs.y, lhs.z - rhs.z⟩

/-- The cast `[i64; 3] -> Option<[usize; 3]>` performed by
`VolumeIdx::array::<usize>`: succeeds iff every component is non-negative. -/
def arrayUsize (p : V3) : Option (ℕ × ℕ × ℕ) :=
  if 0 ≤ p.x ∧ 0 ≤ p.y ∧ 0 ≤ p.z then some (p.x.toNat, p.y.toNat, p.z.toNat)
  else none

/-- `types::BoundingBox`: two `i64` triplets `min` and `max`. -/
structure BoundingBox where
  min : V3
  max : V3
deriving DecidableEq, Repr

/-- `BoundingBox::new`: canonicalizes the two corners componentwise. -/
def BoundingBox.new (pos1 pos2 : V3) : BoundingBox :=
  { min := ⟨Min.min pos1.x pos2.x, Min.min pos1.y pos2.y, Min.min pos1.z pos2.z⟩
    max := ⟨Max.max pos1.x pos2.x, Max.max pos1.y pos2.y, Max.max pos1.z pos2.z⟩ }

/-- `BoundingBox::capacity`: product of the signed differences (in `i128`,
which never overflows for `i64` inputs, hence plain `ℤ` here). -/
def BoundingBox.capacity (b : BoundingBox) : ℤ :=
  (b.max.x - b.min.x) * (b.max.y - b.min.y) * (b.max.z - b.min.z)

/-- `BoundingBox::contains` for an index already unpacked to `[i64; 3]`:
the half-open componentwise range test. -/
def BoundingBox.contains (b : BoundingBox) (p : V3) : Bool :=
  decide (b.min.x ≤ p.x ∧ p.x < b.max.x ∧
          b.min.y ≤ p.y ∧ p.y < b.max.y ∧
          b.min.z ≤ p.z ∧ p.z < b.max.z)

/-- `BoundingBox::x_span`: `i64::abs(max[0] - min[0])`. -/
def BoundingBox.x_span (b : BoundingBox) : ℤ := |b.max.x - b.min.x|

/-- `BoundingBox::y_span`. -/
def BoundingBox.y_span (b : BoundingBox) : ℤ := |b.max.y - b.min.y|

/-- `BoundingBox::z_span`. -/
def BoundingBox.z_span (b : BoundingBox) : ℤ := |b.max.z - b.min.z|

/-- `types::BoundingBoxIterator`: the current cursor plus the box. -/
structure BoundingBoxIterator where
  current : V3
  bounding_box : BoundingBox
deriving DecidableEq, Repr

/-- One call of `BoundingBoxIterator::next`: returns the emitted item (if the
cursor's Z coordinate is still below the box's max) and the updated state,
with the X/Y/Z carry logic translated literally from the source. -/
def bbIterNext (s : BoundingBoxIterator) : Option V3 × BoundingBoxIterator :=
  let bb := s.bounding_box
  let out := if s.current.z ≥ bb.max.z then none else some s.current
  let c1 : V3 := ⟨s.current.x + 1, s.current.y, s.current.z⟩
  let c2 : V3 :=
    if c1.x ≥ bb.max.x then
      let c : V3 := ⟨bb.min.x, c1.y + 1, c1.z⟩
      if c.y ≥ bb.max.y then ⟨bb.min.x, bb.min.y, c.z + 1⟩ else c
    else c1
  (out, ⟨c2, bb⟩)

/-- `IntoIterator for BoundingBox`: the cursor starts at `min`. -/
def BoundingBox.intoIter (b : BoundingBox) : BoundingBoxIterator :=
  ⟨b.min, b⟩

/-- Runs the bounding-box iterator for at most `fuel` steps, collecting the
emitted positions until the first `None` (the consumption discipline of every
Rust iterator adaptor used in the crate). -/
def bbSteps : ℕ → BoundingBoxIterator → List V3
  | 0, _ => []
  | n + 1, s =>
    match bbIterNext s with
    | (none, _) => []
    | (some p, s') => p :: bbSteps n s'

/-- The nested enumeration order stated by the spec: X varies fastest,
Z slowest, each axis ranging over `[min, max)`. -/
def canonicalPositions (b : BoundingBox) : List V3 :=
  (List.range (b.max.z - b.min.z).toNat).flatMap fun k =>
    (List.range (b.max.y - b.min.y).toNat).flatMap fun j =>
      (List.range (b.max.x - b.min.x).toNat).map fun (i : ℕ) =>
        ⟨b.min.x + (i : ℤ), b.min.y + (j : ℤ), b.min.z + (k : ℤ)⟩

/-- `spaces::Space`: a localspace or worldspace index. -/
inductive Space (α : Type) where
  | localspace : α → Space α
  | worldspace : α → Space α

/-- `impls::HeapVolume`: nested boxed slices (indexed `[x][y][z]`) plus the
bounding box. -/
structure HeapVolume (T : Type) where
  inner : List (List (List T))
  bounds : BoundingBox

/-- `Volume::bounding_box` for `HeapVolume`. -/
def HeapVolume.bounding_box (v : HeapVolume T) : BoundingBox :=
  v.bounds

/-- `HeapVolume::new`: storage of dimensions `x_span × y_span × z_span`
(innermost slice along Z) filled with `item`. -/
def HeapVolume.new (item : T) (bounds : BoundingBox) : HeapVolume T :=
  { inner := List.replicate bounds.x_span.toNat
      (List.replicate bounds.y_span.toNat
        (List.replicate bounds.z_span.toNat item))
    bounds := bounds }

/-- `HeapVolume::to_ls`: worldspace positions are translated by subtracting
the box's minimum corner before the `usize` cast; localspace positions are
cast directly. -/
def HeapVolume.to_ls (v : HeapVolume T) (idx : Space V3) : Option (ℕ × ℕ × ℕ) :=
  match idx with
  | .worldspace pos => arrayUsize (vsub pos v.bounding_box.min)
  | .localspace pos => arrayUsize pos

/-- Nested lookup `inner.get(x)?.get(y)?.get(z)` shared by `ls_get`,
`ls_get_mut` and the `StackVolume` accessors. -/
def lsIndex (l : List (List (List T))) (i : ℕ × ℕ × ℕ) : Option T :=
  (l[i.1]?).bind fun row => (row[i.2.1]?).bind fun col => col[i.2.2]?

/-- Writes `item` at nested index `i` when the `[x]` and `[y]` slots exist
(the situations in which `ls_get_mut` hands out a mutable slot); a write to a
missing slot leaves the storage unchanged. -/
def lsWrite (l : List (List (List T))) (i : ℕ × ℕ × ℕ) (item : T) :
    List (List (List T)) :=
  match l[i.1]? with
  | none => l
  | some row =>
    match row[i.2.1]? with
    | none => l
    | some col => l.set i.1 (row.set i.2.1 (col.set i.2.2 item))

/-- `HeapVolume::ls_get`. -/
def HeapVolume.ls_get (v : HeapVolume T) (i : ℕ × ℕ × ℕ) : Option T :=
  lsIndex v.inner i

/-- `HeapVolume::ls_get_mut` (in this pure model a mutable borrow reads the
same slot as `ls_get`). -/
def HeapVolume.ls_get_mut (v : HeapVolume T) (i : ℕ × ℕ × ℕ) : Option T :=
  lsIndex v.inner i

/-- `VolumeAccess<Space<Idx>> for HeapVolume`. -/
def HeapVolume.getSpace (v : HeapVolume T) (idx : Space V3) : Option T :=
  (v.to_ls idx).bind v.ls_get

/-- `VolumeMutAccess<Space<Idx>> for HeapVolume`. -/
def HeapVolume.getMutSpace (v : HeapVolume T) (idx : Space V3) : Option T :=
  (v.to_ls idx).bind v.ls_get_mut

/-- `VolumeSwapper<Space<Idx>> for HeapVolume`: `get_mut` then
`mem::replace`; the returned pair is (old item, updated volume). -/
def HeapVolume.swapSpace (v : HeapVolume T) (idx : Space V3) (item : T) :
    Option T × HeapVolume T :=
  match v.to_ls idx with
  | none => (none, v)
  | some i =>
    match v.ls_get_mut i with
    | none => (none, v)
    | some old => (some old, { v with inner := lsWrite v.inner i item })

/-- `VolumeAccess<Idx> for HeapVolume`: a bare index is wrapped in
`Space::Localspace`. -/
def HeapVolume.get (v : HeapVolume T) (idx : V3) : Option T :=
  v.getSpace (Space.localspace idx)

/-- `VolumeMutAccess<Idx> for HeapVolume`. -/
def HeapVolume.get_mut (v : HeapVolume T) (idx : V3) : Option T :=
  v.getMutSpace (Space.localspace idx)

/-- `VolumeSwapper<Idx> for HeapVolume`. -/
def HeapVolume.swap (v : HeapVolume T) (idx : V3) (item : T) :
    Option T × HeapVolume T :=
  v.swapSpace (Space.localspace idx) item

/-- `HeapVolume::ws_get`. -/
def HeapVolume.ws_get (v : HeapVolume T) (idx : V3) : Option T :=
  v.getSpace (Space.worldspace idx)

/-- `HeapVolume::ws_get_mut`. -/
def HeapVolume.ws_get_mut (v : HeapVolume T) (idx : V3) : Option T :=
  v.getMutSpace (Space.worldspace idx)

/-- `HeapVolume::ws_swap`. -/
def HeapVolume.ws_swap (v : HeapVolume T) (idx : V3) (item : T) :
    Option T × HeapVolume T :=
  v.swapSpace (Space.worldspace idx) item

/-- Shape invariant of every `HeapVolume` built by the crate's constructors
and preserved by its mutations: the nested storage has exactly
`x_span × y_span × z_span` slots. -/
def wfHeap (v : HeapVolume T) : Prop :=
  v.inner.length = v.bounds.x_span.toNat ∧
  ∀ row ∈ v.inner, row.length = v.bounds.y_span.toNat ∧
    ∀ col ∈ row, col.length = v.bounds.z_span.toNat

instance : DecidablePred (wfHeap (T := T)) := fun v => by
  unfold wfHeap
  infer_instance

/-- `impls::StackVolume<X, Y, Z, T>`: a nested fixed-size array; the
type-level dimensions are carried as data. -/
structure StackVolume (T : Type) where
  dims : ℕ × ℕ × ℕ
  inner : List (List (List T))

/-- `StackVolume::filled`. -/
def StackVolume.filled (x y z : ℕ) (item : T) : StackVolume T :=
  ⟨(x, y, z), List.replicate x (List.replicate y (List.replicate z item))⟩

/-- `VolumeAccess<Idx> for StackVolume`: cast to `[usize; 3]` then nested
lookup. -/
def StackVolume.get (v : StackVolume T) (idx : V3) : Option T :=
  (arrayUsize idx).bind (lsIndex v.inner)

/-- `VolumeMutAccess<Idx> for StackVolume`. -/
def StackVolume.get_mut (v : StackVolume T) (idx : V3) : Option T :=
  (arrayUsize idx).bind (lsIndex v.inner)

/-- `VolumeSwapper<Idx> for StackVolume`: `get_mut` then `mem::replace`. -/
def StackVolume.swap (v : StackVolume T) (idx : V3) (item : T) :
    Option T × StackVolume T :=
  match arrayUsize idx with
  | none => (none, v)
  | some i =>
    match lsIndex v.inner i with
    | none => (none, v)
    | some old => (some old, { v with inner := lsWrite v.inner i item })

/-- `Option::unwrap`, with a panic modelled as `Except.error ()`. -/
def optionUnwrap (o : Option T) : Except Unit T :=
  match o with
  | some t => Except.ok t
  | none => Except.error ()

/-- `std::ops::Index for HeapVolume` (macro `impl_indexing`):
`self.get(idx).unwrap()`. -/
def HeapVolume.index (v : HeapVolume T) (idx : V3) : Except Unit T :=
  optionUnwrap (v.get idx)

/-- `std::ops::IndexMut for HeapVolume`: `self.get_mut(idx).unwrap()`. -/
def HeapVolume.index_mut (v : HeapVolume T) (idx : V3) : Except Unit T :=
  optionUnwrap (v.get_mut idx)

/-- `std::ops::Index for StackVolume`. -/
def StackVolume.index (v : StackVolume T) (idx : V3) : Except Unit T :=
  optionUnwrap (v.get idx)

/-- `std::ops::IndexMut for StackVolume`. -/
def StackVolume.index_mut (v : StackVolume T) (idx : V3) : Except Unit T :=
  optionUnwrap (v.get_mut idx)

/-- `VolumeIterator` for a `HeapVolume`, run for at most `fuel` steps: each
step advances the bounding-box iterator and looks the position up with the
bare (localspace) `get`; the first `None` from either ends consumption. -/
def heapIterSteps : ℕ → HeapVolume T → BoundingBoxIterator → List T
  | 0, _, _ => []
  | n + 1, v, s =>
    match bbIterNext s with
    | (none, _) => []
    | (some idx, s') =>
      match v.get idx with
      | none => []
      | some item => item :: heapIterSteps n v s'

/-- `PartialEq for HeapVolume`: equal bounding boxes and no element-wise
mismatch over the zipped iterators (`fuel` bounds the iteration; any value at
least the capacity of the boxes is exact). -/
def HeapVolume.eq [DecidableEq T] (fuel : ℕ) (v other : HeapVolume T) : Bool :=
  (v.bounding_box == other.bounding_box) &&
    !(((heapIterSteps fuel v v.bounding_box.intoIter).zip
        (heapIterSteps fuel other other.bounding_box.intoIter)).any
      fun ab => decide (ab.1 ≠ ab.2))

/-- `types::InsertError`. -/
inductive InsertError where
  | volumeEscapesBounds : InsertError
deriving DecidableEq, Repr

/-- The copy loop of the spec-modelled `Volume::insert`: folds the write of
each of `other`'s elements (offset by `at_`) over the accumulating target
volume. -/
def insertLoop (other : HeapVolume T) (at_ : V3) (L : List V3)
    (acc : HeapVolume T) : HeapVolume T :=
  L.foldl
    (fun a p =>
      match other.ws_get p with
      | none => a
      | some item => (a.ws_swap (vadd at_ p) item).2)
    acc

/-- Modelled from the spec: the default composite method `Volume::insert` is
missing from `src/` (only its caller in `tests.rs` and the declaration of
`InsertError` survive).  Per the spec it pre-validates that `at + other.min`
and `at + other.max` both lie inside `self`'s region, failing with
`VolumeEscapesBounds` and performing no mutation otherwise; on success it
copies every element of `other` into `self`, offsetting every
`other`-position (a worldspace position of `other`) by `at`. -/
def HeapVolume.insert (self : HeapVolume T) (at_ : V3) (other : HeapVolume T) :
    Except InsertError (HeapVolume T) :=
  if self.bounds.contains (vadd at_ other.bounds.min) ∧
      self.bounds.contains (vadd at_ other.bounds.max) then
    Except.ok (insertLoop other at_ (canonicalPositions other.bounds) self)
  else
    Except.error InsertError.volumeEscapesBounds

/-- The older generation of the crate in `lib.rs`: `BoundingBox` stores the
two raw corners and canonicalizes on demand. -/
structure OldBoundingBox where
  pos1 : V3
  pos2 : V3
deriving DecidableEq, Repr

/-- `lib.rs` `BoundingBox::min`. -/
def OldBoundingBox.min (b : OldBoundingBox) : V3 :=
  ⟨Min.min b.pos1.x b.pos2.x, Min.min b.pos1.y b.pos2.y, Min.min b.pos1.z b.pos2.z⟩

/-- `lib.rs` `BoundingBox::max`. -/
def OldBoundingBox.max (b : OldBoundingBox) : V3 :=
  ⟨Max.max b.pos1.x b.pos2.x, Max.max b.pos1.y b.pos2.y, Max.max b.pos1.z b.pos2.z⟩

/-- `lib.rs` `BoundingBox::contains`: half-open test against the
canonicalized corners. -/
def OldBoundingBox.contains (b : OldBoundingBox) (idx : V3) : Bool :=
  decide (b.min.x ≤ idx.x ∧ idx.x < b.max.x ∧
          b.min.y ≤ idx.y ∧ idx.y < b.max.y ∧
          b.min.z ≤ idx.z ∧ idx.z < b.max.z)

/-- `error::OversizedBounds`: the rejected bounds plus, when available, the
backend's own bounds. -/
structure OversizedBounds where
  provided : OldBoundingBox
  expected : Option OldBoundingBox
deriving DecidableEq, Repr

/-- `lib.rs` `Subvolume`: the restricting bounds (the exclusively borrowed
backend is passed separately as its bounding box, which is all the
constructor consults). -/
structure Subvolume where
  bounds : OldBoundingBox
deriving DecidableEq, Repr

/-- `Subvolume::new`: requires the backend's default `Volume::contains`
(which delegates to its bounding box) to hold at both corners of the
restricting bounds. -/
def Subvolume.new (volBox : OldBoundingBox) (bounds : OldBoundingBox) :
    Except OversizedBounds Subvolume :=
  if volBox.contains bounds.min ∧ volBox.contains bounds.max then
    Except.ok ⟨bounds⟩
  else
    Except.error ⟨bounds, some volBox⟩

/-- `Subvolume::resize`: same check (corners tested in the other order),
replacing the restricting bounds. -/
def Subvolume.resize (volBox : OldBoundingBox) (_self : Subvolume)
    (bounds : OldBoundingBox) : Except OversizedBounds Subvolume :=
  if volBox.contains bounds.max ∧ volBox.contains bounds.min then
    Except.ok ⟨bounds⟩
  else
    Except.error ⟨bounds, some volBox⟩

/-- The spec's notion of one region being fully contained in another: every
position the inner region contains, the outer one contains too. -/
def regionSubset (inner outer : OldBoundingBox) : Prop :=
  ∀ p : V3, inner.contains p = true → outer.contains p = true

/-- Concrete volume for the round-trip witness. -/
def c7Heap : HeapVolume ℤ := HeapVolume.new 10 (BoundingBox.new ⟨0, 0, 0⟩ ⟨2, 2, 2⟩)

/-- Concrete stack volume for the round-trip witness. -/
def c7Stack : StackVolume ℤ := StackVolume.filled 2 2 2 7

/-- The volume of the spec's concrete scenario and of the repository's own
test `heap_volume_unusual_bounds`: region `[-9,-9,-9]..[-2,-2,-2]` filled
with `10`. -/
def c1Volume : HeapVolume ℤ := HeapVolume.new 10 (BoundingBox.new ⟨-9, -9, -9⟩ ⟨-2, -2, -2⟩)

/-- The box of the C8 failing input. -/
def c8Box : BoundingBox := BoundingBox.new ⟨-1, -1, -1⟩ ⟨0, 0, 0⟩

/-- First C8 volume: the single-cell region `[-1,-1,-1]..[0,0,0]` holding `1`. -/
def c8VolA : HeapVolume ℤ := HeapVolume.new 1 c8Box

/-- Second C8 volume: the same region holding `2`. -/
def c8VolB : HeapVolume ℤ := HeapVolume.new 2 c8Box

/-- The backend region of the C6 counterexample. -/
def c6Box : OldBoundingBox := ⟨⟨0, 0, 0⟩, ⟨2, 2, 2⟩⟩

/-- Position at cursor offset `(i, j, k)` from the box's minimum corner
(infrastructure for characterizing the bounding-box iterator). -/
def posAt (b : BoundingBox) (i j k : ℕ) : V3 :=
  ⟨b.min.x + (i : ℤ), b.min.y + (j : ℤ), b.min.z + (k : ℤ)⟩

/-- Iterator state whose cursor sits at offset `(i, j, k)`. -/
def stateAt (b : BoundingBox) (i j k : ℕ) : BoundingBoxIterator :=
  ⟨posAt b i j k, b⟩

/-- The rest of the X-row starting at offset `i` (row `j`, plane `k`). -/
def rowSuffix (b : BoundingBox) (i j k : ℕ) : List V3 :=
  (List.range' i ((b.max.x - b.min.x).toNat - i)).map fun i' => posAt b i' j k

/-- The full X-rows of plane `k`, from row `j` on. -/
def planeSuffix (b : BoundingBox) (j k : ℕ) : List V3 :=
  (List.range' j ((b.max.y - b.min.y).toNat - j)).flatMap fun j' =>
    (List.range (b.max.x - b.min.x).toNat).map fun i' => posAt b i' j' k

/-- The full planes of the box, from plane `k` on. -/
def boxSuffix (b : BoundingBox) (k : ℕ) : List V3 :=
  (List.range' k ((b.max.z - b.min.z).toNat - k)).flatMap fun k' =>
    (List.range (b.max.y - b.min.y).toNat).flatMap fun j' =>
      (List.range (b.max.x - b.min.x).toNat).map fun i' => posAt b i' j' k'

/-- The portion of the canonical enumeration still to be emitted when the
iterator's cursor sits at offset `(i, j, k)`. -/
def sfx (b : BoundingBox) (i j k : ℕ) : List V3 :=
  rowSuffix b i j k ++ planeSuffix b (j + 1) k ++ boxSuffix b (k + 1)

/-! ### Basic lemmas about the nested storage -/

theorem lsIndex_lsWrite_self {T : Type} {l : List (List (List T))}
    {a b c : ℕ} {old : T} (item : T) (h : lsIndex l (a, b, c) = some old) :
    lsIndex (lsWrite l (a, b, c) item) (a, b, c) = some item := by
  unfold lsIndex at h
  cases hl : l[a]? with
  | none => simp [hl] at h
  | some row =>
    cases hr : row[b]? with
    | none => simp [hl, hr] at h
    | some col =>
      cases hc : col[c]? with
      | none => simp [hl, hr, hc] at h
      | some oldv =>
        have ha : a < l.length := (List.getElem?_eq_some.mp hl).1
        have hb : b < row.length := (List.getElem?_eq_some.mp hr).1
        have hcl : c < col.length := (List.getElem?_eq_some.mp hc).1
        unfold lsWrite
        simp only [hl, hr]
        unfold lsIndex
        rw [List.getElem?_set_self (by simpa using ha)]
        simp only [Option.some_bind]
        rw [List.getElem?_set_self (by simpa using hb)]
        simp only [Option.some_bind]
        rw [List.getElem?_set_self (by simpa using hcl)]

theorem lsIndex_lsWrite_ne {T : Type} (l : List (List (List T)))
    {i j : ℕ × ℕ × ℕ} (item : T) (hne : i ≠ j) :
    lsIndex (lsWrite l i item) j = lsIndex l j := by
  obtain ⟨a, b, c⟩ := i
  obtain ⟨a', b', c'⟩ := j
  cases hl : l[a]? with
  | none => simp [lsWrite, hl]
  | some row =>
    cases hr : row[b]? with
    | none => simp [lsWrite, hl, hr]
    | some col =>
      have ha : a < l.length := (List.getElem?_eq_some.mp hl).1
      have hb : b < row.length := (List.getElem?_eq_some.mp hr).1
      simp only [lsWrite, hl, hr]
      unfold lsIndex
      by_cases haa : a = a'
      · subst haa
        rw [List.getElem?_set_self (by simpa using ha), hl]
        simp only [Option.some_bind]
        by_cases hbb : b = b'
        · subst hbb
          rw [List.getElem?_set_self (by simpa using hb), hr]
          simp only [Option.some_bind]
          have hcc : c ≠ c' := by
            intro hcs
            exact hne (by simp [hcs])
          rw [List.getElem?_set_ne hcc]
        · rw [List.getElem?_set_ne hbb]
      · rw [List.getElem?_set_ne haa]

/-! ### C9: a bare index is a localspace index -/

/-- C9: for every `HeapVolume` and plain array index, `get`, `get_mut` and
`swap` coincide with the `Space::Localspace` operations — the bare index is
looked up in raw storage without being translated by the region's minimum
corner — while worldspace lookups happen only via `ws_get` / `ws_get_mut` /
`ws_swap`, which wrap the index in `Space::Worldspace` (translating by the
minimum corner). -/
theorem bare_index_is_localspace :
    ∀ (T : Type) (v : HeapVolume T) (idx : V3) (item : T),
      v.get idx = v.getSpace (Space.localspace idx) ∧
      v.get_mut idx = v.getMutSpace (Space.localspace idx) ∧
      v.swap idx item = v.swapSpace (Space.localspace idx) item ∧
      v.get idx = (arrayUsize idx).bind (lsIndex v.inner) ∧
      v.ws_get idx = v.getSpace (Space.worldspace idx) ∧
      v.ws_get_mut idx = v.getMutSpace (Space.worldspace idx) ∧
      v.ws_swap idx item = v.swapSpace (Space.worldspace idx) item ∧
      v.ws_get idx = (arrayUsize (vsub idx v.bounds.min)).bind (lsIndex v.inner) :=
  fun _ _ _ _ => ⟨rfl, rfl, rfl, rfl, rfl, rfl, rfl, rfl⟩

/-! ### C10: bracket indexing panics exactly on absence -/

/-- C10: for `HeapVolume` and `StackVolume`, the `Index`/`IndexMut`
implementations (which call `get(idx).unwrap()` resp.
`get_mut(idx).unwrap()`) panic exactly when `get` resp. `get_mut` returns
`None` for the same index. -/
theorem bracket_panics_iff_get_none :
    ∀ (T : Type) (hv : HeapVolume T) (sv : StackVolume T) (idx : V3),
      (hv.index idx = Except.error () ↔ hv.get idx = none) ∧
      (hv.index_mut idx = Except.error () ↔ hv.get_mut idx = none) ∧
      (sv.index idx = Except.error () ↔ sv.get idx = none) ∧
      (sv.index_mut idx = Except.error () ↔ sv.get_mut idx = none) := by
  intro T hv sv idx
  refine ⟨?_, ?_, ?_, ?_⟩
  · cases h : hv.get idx <;> simp [HeapVolume.index, optionUnwrap, h]
  · cases h : hv.get_mut idx <;> simp [HeapVolume.index_mut, optionUnwrap, h]
  · cases h : sv.get idx <;> simp [StackVolume.index, optionUnwrap, h]
  · cases h : sv.get_mut idx <;> simp [StackVolume.index_mut, optionUnwrap, h]

/-! ### C5: constructor canonicalizes the corners -/

/-- C5: `BoundingBox::new` stores the componentwise minimum and maximum of
the two corners, so `min() <= max()` componentwise regardless of argument
order. -/
theorem bb_new_min_le_max :
    ∀ p1 p2 : V3,
      (BoundingBox.new p1 p2).min.x = Min.min p1.x p2.x ∧
      (BoundingBox.new p1 p2).min.y = Min.min p1.y p2.y ∧
      (BoundingBox.new p1 p2).min.z = Min.min p1.z p2.z ∧
      (BoundingBox.new p1 p2).max.x = Max.max p1.x p2.x ∧
      (BoundingBox.new p1 p2).max.y = Max.max p1.y p2.y ∧
      (BoundingBox.new p1 p2).max.z = Max.max p1.z p2.z ∧
      (BoundingBox.new p1 p2).min.x ≤ (BoundingBox.new p1 p2).max.x ∧
      (BoundingBox.new p1 p2).min.y ≤ (BoundingBox.new p1 p2).max.y ∧
      (BoundingBox.new p1 p2).min.z ≤ (BoundingBox.new p1 p2).max.z ∧
      BoundingBox.new p1 p2 = BoundingBox.new p2 p1 := by
  intro p1 p2
  refine ⟨rfl, rfl, rfl, rfl, rfl, rfl, ?_, ?_, ?_, ?_⟩
  · simp [BoundingBox.new]
  · simp [BoundingBox.new]
  · simp [BoundingBox.new]
  · simp [BoundingBox.new, BoundingBox.mk.injEq, V3.mk.injEq]
    omega

/-! ### C4: the containment test -/

/-- C4: for every constructible box `b` and position `p`, `contains` is the
half-open componentwise test `min[i] <= p[i] < max[i]`; `contains(max)` is
always false; `contains(min)` holds iff all three spans are nonzero; and a
degenerate box contains nothing. -/
theorem bb_contains_spec :
    ∀ c1 c2 p : V3,
      ((BoundingBox.new c1 c2).contains p = true ↔
        ((BoundingBox.new c1 c2).min.x ≤ p.x ∧ p.x < (BoundingBox.new c1 c2).max.x ∧
         (BoundingBox.new c1 c2).min.y ≤ p.y ∧ p.y < (BoundingBox.new c1 c2).max.y ∧
         (BoundingBox.new c1 c2).min.z ≤ p.z ∧ p.z < (BoundingBox.new c1 c2).max.z)) ∧
      (BoundingBox.new c1 c2).contains (BoundingBox.new c1 c2).max = false ∧
      ((BoundingBox.new c1 c2).contains (BoundingBox.new c1 c2).min = true ↔
        ((BoundingBox.new c1 c2).x_span ≠ 0 ∧ (BoundingBox.new c1 c2).y_span ≠ 0 ∧
         (BoundingBox.new c1 c2).z_span ≠ 0)) ∧
      (((BoundingBox.new c1 c2).x_span = 0 ∨ (BoundingBox.new c1 c2).y_span = 0 ∨
         (BoundingBox.new c1 c2).z_span = 0) →
        ∀ q : V3, (BoundingBox.new c1 c2).contains q = false) := by
  intro c1 c2 p
  refine ⟨?_, ?_, ?_, ?_⟩
  · simp [BoundingBox.contains]
  · simp [BoundingBox.contains, BoundingBox.new]
  · simp [BoundingBox.contains, BoundingBox.new, BoundingBox.x_span,
      BoundingBox.y_span, BoundingBox.z_span, abs_eq_zero]
    omega
  · intro hdeg q
    simp only [BoundingBox.x_span, BoundingBox.y_span, BoundingBox.z_span,
      abs_eq_zero] at hdeg
    simp [BoundingBox.contains, BoundingBox.new] at hdeg ⊢
    omega

/-- Witness for `bb_contains_spec`: a degenerate box (zero X span) contains
nothing, here evaluated at a concrete point. -/
theorem bb_contains_spec_witness :
    (BoundingBox.new ⟨0, 0, 0⟩ ⟨0, 2, 2⟩).contains ⟨0, 1, 1⟩ = false :=
  (bb_contains_spec ⟨0, 0, 0⟩ ⟨0, 2, 2⟩ ⟨0, 1, 1⟩).2.2.2 (Or.inl (by decide)) ⟨0, 1, 1⟩

/-! ### C7: swap/get round-trip -/

theorem to_ls_inner_update (v : HeapVolume T) (s : Space V3)
    (l : List (List (List T))) :
    HeapVolume.to_ls { v with inner := l } s = v.to_ls s := by
  cases s <;> rfl

theorem swapSpace_roundtrip_aux {T : Type} (v : HeapVolume T) (s : Space V3)
    (old item : T) (h : v.getSpace s = some old) :
    (v.swapSpace s item).1 = some old ∧
    (v.swapSpace s item).2.getSpace s = some item := by
  unfold HeapVolume.getSpace at h
  cases ht : v.to_ls s with
  | none => rw [ht] at h; simp at h
  | some i =>
    rw [ht] at h
    simp only [Option.some_bind] at h
    obtain ⟨a, b, c⟩ := i
    unfold HeapVolume.ls_get at h
    unfold HeapVolume.swapSpace
    simp only [ht, HeapVolume.ls_get_mut, h]
    refine ⟨trivial, ?_⟩
    unfold HeapVolume.getSpace
    rw [to_ls_inner_update, ht]
    simp only [Option.some_bind, HeapVolume.ls_get]
    exact lsIndex_lsWrite_self item h

/-- C7: on every volume, whenever `get` answers `Some(old)`, `swap(idx, v)`
returns exactly `old` and a subsequent `get` at the same index answers
`Some(v)` — for `HeapVolume` with `Space` indices, with bare (localspace)
indices, and for `StackVolume`. -/
theorem swap_get_roundtrip :
    (∀ (T : Type) (v : HeapVolume T) (s : Space V3) (old item : T),
      v.getSpace s = some old →
        (v.swapSpace s item).1 = some old ∧
        (v.swapSpace s item).2.getSpace s = some item) ∧
    (∀ (T : Type) (v : HeapVolume T) (idx : V3) (old item : T),
      v.get idx = some old →
        (v.swap idx item).1 = some old ∧
        (v.swap idx item).2.get idx = some item) ∧
    (∀ (T : Type) (v : StackVolume T) (idx : V3) (old item : T),
      v.get idx = some old →
        (v.swap idx item).1 = some old ∧
        (v.swap idx item).2.get idx = some item) := by
  refine ⟨fun T v s old item h => swapSpace_roundtrip_aux v s old item h, ?_, ?_⟩
  · intro T v idx old item h
    exact swapSpace_roundtrip_aux v (Space.localspace idx) old item h
  · intro T v idx old item h
    unfold StackVolume.get at h
    cases ht : arrayUsize idx with
    | none => rw [ht] at h; simp at h
    | some i =>
      rw [ht] at h
      simp only [Option.some_bind] at h
      obtain ⟨a, b, c⟩ := i
      unfold StackVolume.swap
      simp only [ht, h]
      refine ⟨trivial, ?_⟩
      unfold StackVolume.get
      rw [ht]
      simp only [Option.some_bind]
      exact lsIndex_lsWrite_self item h

/-- Witness for `swap_get_roundtrip` at concrete volumes and indices. -/
theorem swap_get_roundtrip_witness :
    ((c7Heap.swap ⟨1, 1, 1⟩ 50).1 = some 10 ∧
      (c7Heap.swap ⟨1, 1, 1⟩ 50).2.get ⟨1, 1, 1⟩ = some 50) ∧
    ((c7Stack.swap ⟨0, 1, 0⟩ 9).1 = some 7 ∧
      (c7Stack.swap ⟨0, 1, 0⟩ 9).2.get ⟨0, 1, 0⟩ = some 9) :=
  ⟨swap_get_roundtrip.2.1 ℤ c7Heap ⟨1, 1, 1⟩ 10 50 (by decide),
   swap_get_roundtrip.2.2 ℤ c7Stack ⟨0, 1, 0⟩ 7 9 (by decide)⟩

/-! ### C1: bare-index `get` on a negatively positioned volume -/

/-- C1 (code bug): contrary to the claim (and to the repository's own test
`heap_volume_unusual_bounds`), the bare-index `get` of `impls.rs` routes
through `Space::Localspace`, so on the `[-9,-9,-9]..[-2,-2,-2]` volume
`get([0,0,0])` answers `Some(10)` although the position is outside the
region, while `get([-4,-4,-4])` and `swap([-4,-4,-4], 50)` answer `None`
although the position is inside the region. -/
theorem heap_bare_get_contradicts_worldspace_claim :
    c1Volume.get ⟨0, 0, 0⟩ = some 10 ∧
    c1Volume.bounds.contains ⟨0, 0, 0⟩ = false ∧
    c1Volume.get ⟨-4, -4, -4⟩ = none ∧
    (c1Volume.swap ⟨-4, -4, -4⟩ 50).1 = none ∧
    c1Volume.bounds.contains ⟨-4, -4, -4⟩ = true ∧
    c1Volume.ws_get ⟨0, 0, 0⟩ = none ∧
    c1Volume.ws_get ⟨-4, -4, -4⟩ = some 10 := by
  decide

/-! ### C8: `PartialEq` on worldspace-positioned volumes -/

/-- C8 (code bug): `PartialEq for HeapVolume` compares the element iterators,
but `iter()` dereferences worldspace positions with the bare (localspace)
`get`, so on a volume whose minimum corner is negative it yields nothing and
two volumes with equal regions but different elements compare equal. -/
theorem heap_eq_ignores_elements :
    HeapVolume.eq 10 c8VolA c8VolB = true ∧
    c8Box.contains ⟨-1, -1, -1⟩ = true ∧
    c8VolA.ws_get ⟨-1, -1, -1⟩ = some 1 ∧
    c8VolB.ws_get ⟨-1, -1, -1⟩ = some 2 := by
  decide

/-! ### C6: `Subvolume` construction and resize -/

/-- C6 (amended): `Subvolume::new` and `Subvolume::resize` succeed exactly
when both the `min` and the `max` corner of the restricting region pass the
backend's half-open containment test (`backend.min <= corner < backend.max`
componentwise) — a region touching the backend's `max` corner is rejected
even though it is fully contained as a set — and on failure they return an
`OversizedBounds` carrying the rejected region and the backend's region. -/
theorem subvolume_new_resize_condition :
    ∀ (volBox bounds : OldBoundingBox) (s : Subvolume),
      ((Subvolume.new volBox bounds).isOk = true ↔
        (volBox.contains bounds.min = true ∧ volBox.contains bounds.max = true)) ∧
      (¬(volBox.contains bounds.min = true ∧ volBox.contains bounds.max = true) →
        Subvolume.new volBox bounds = Except.error ⟨bounds, some volBox⟩) ∧
      ((Subvolume.new volBox bounds).isOk = true →
        Subvolume.new volBox bounds = Except.ok ⟨bounds⟩) ∧
      ((Subvolume.resize volBox s bounds).isOk = true ↔
        (volBox.contains bounds.min = true ∧ volBox.contains bounds.max = true)) ∧
      (¬(volBox.contains bounds.min = true ∧ volBox.contains bounds.max = true) →
        Subvolume.resize volBox s bounds = Except.error ⟨bounds, some volBox⟩) := by
  intro volBox bounds s
  unfold Subvolume.new Subvolume.resize
  by_cases h1 : volBox.contains bounds.min = true <;>
    by_cases h2 : volBox.contains bounds.max = true <;>
      simp [h1, h2, Except.isOk, Except.toBool]

/-- Witness for `subvolume_new_resize_condition`: a strictly smaller region
is accepted, and a region reaching the backend's far corner is rejected with
the diagnostic payload. -/
theorem subvolume_new_resize_condition_witness :
    (Subvolume.new ⟨⟨0, 0, 0⟩, ⟨3, 3, 3⟩⟩ ⟨⟨0, 0, 0⟩, ⟨2, 2, 2⟩⟩).isOk = true ∧
    Subvolume.new ⟨⟨0, 0, 0⟩, ⟨3, 3, 3⟩⟩ ⟨⟨0, 0, 0⟩, ⟨3, 3, 3⟩⟩ =
      Except.error ⟨⟨⟨0, 0, 0⟩, ⟨3, 3, 3⟩⟩, some ⟨⟨0, 0, 0⟩, ⟨3, 3, 3⟩⟩⟩ :=
  ⟨(subvolume_new_resize_condition ⟨⟨0, 0, 0⟩, ⟨3, 3, 3⟩⟩ ⟨⟨0, 0, 0⟩, ⟨2, 2, 2⟩⟩
      ⟨⟨⟨0, 0, 0⟩, ⟨2, 2, 2⟩⟩⟩).1.mpr (by decide),
   (subvolume_new_resize_condition ⟨⟨0, 0, 0⟩, ⟨3, 3, 3⟩⟩ ⟨⟨0, 0, 0⟩, ⟨3, 3, 3⟩⟩
      ⟨⟨⟨0, 0, 0⟩, ⟨2, 2, 2⟩⟩⟩).2.1 (by decide)⟩

/-- C6 counterexample: restricting a backend to its own full region — a
region fully contained in the backend's region — is rejected by both `new`
and `resize`, because the half-open `contains` test fails at the `max`
corner. -/
theorem subvolume_rejects_full_region :
    regionSubset c6Box c6Box ∧
    Subvolume.new c6Box c6Box = Except.error ⟨c6Box, some c6Box⟩ ∧
    Subvolume.resize c6Box ⟨c6Box⟩ c6Box = Except.error ⟨c6Box, some c6Box⟩ :=
  ⟨fun _ h => h, by rfl, by rfl⟩

/-! ### The canonical enumeration: membership, nodup, length -/

theorem mem_canonicalPositions (b : BoundingBox) (p : V3) :
    p ∈ canonicalPositions b ↔ b.contains p = true := by
  obtain ⟨px, py, pz⟩ := p
  unfold canonicalPositions BoundingBox.contains
  simp only [List.mem_flatMap, List.mem_map, List.mem_range, decide_eq_true_eq,
    V3.mk.injEq]
  constructor
  · rintro ⟨k, hk, j, hj, i, hi, hx, hy, hz⟩
    omega
  · intro h
    refine ⟨(pz - b.min.z).toNat, by omega, (py - b.min.y).toNat, by omega,
      (px - b.min.x).toNat, by omega, by omega, by omega, by omega⟩

theorem nodup_canonicalPositions (b : BoundingBox) :
    (canonicalPositions b).Nodup := by
  unfold canonicalPositions
  rw [List.nodup_flatMap]
  refine ⟨fun k _ => ?_, ?_⟩
  · rw [List.nodup_flatMap]
    refine ⟨fun j _ => ?_, ?_⟩
    · refine List.Nodup.map ?_ (List.nodup_range _)
      intro i1 i2 h
      simp only [V3.mk.injEq] at h
      omega
    · refine (List.pairwise_lt_range _).imp ?_
      intro j1 j2 hlt q hq1 hq2
      obtain ⟨qx, qy, qz⟩ := q
      simp only [List.mem_map, List.mem_range, V3.mk.injEq] at hq1 hq2
      obtain ⟨i1, _, _, hy1, _⟩ := hq1
      obtain ⟨i2, _, _, hy2, _⟩ := hq2
      omega
  · refine (List.pairwise_lt_range _).imp ?_
    intro k1 k2 hlt q hq1 hq2
    obtain ⟨qx, qy, qz⟩ := q
    simp only [List.mem_flatMap, List.mem_map, List.mem_range, V3.mk.injEq] at hq1 hq2
    obtain ⟨j1, _, i1, _, _, _, hz1⟩ := hq1
    obtain ⟨j2, _, i2, _, _, _, hz2⟩ := hq2
    omega

theorem length_flatMap_const {α β : Type} (l : List α) (f : α → List β) (c : ℕ)
    (h : ∀ a ∈ l, (f a).length = c) : (l.flatMap f).length = l.length * c := by
  induction l with
  | nil => simp
  | cons a t ih =>
    simp only [List.flatMap_cons, List.length_append, List.length_cons,
      h a (by simp), ih fun x hx => h x (by simp [hx])]
    ring

theorem length_canonicalPositions (b : BoundingBox) :
    (canonicalPositions b).length =
      (b.max.z - b.min.z).toNat * ((b.max.y - b.min.y).toNat *
        (b.max.x - b.min.x).toNat) := by
  have hplane : ∀ k : ℕ,
      ((List.range (b.max.y - b.min.y).toNat).flatMap fun j =>
        (List.range (b.max.x - b.min.x).toNat).map fun (i : ℕ) =>
          (⟨b.min.x + (i : ℤ), b.min.y + (j : ℤ), b.min.z + (k : ℤ)⟩ : V3)).length =
        (b.max.y - b.min.y).toNat * (b.max.x - b.min.x).toNat := by
    intro k
    rw [length_flatMap_const _ _ (b.max.x - b.min.x).toNat fun j _ => by simp,
      List.length_range]
  unfold canonicalPositions
  rw [length_flatMap_const _ _
    ((b.max.y - b.min.y).toNat * (b.max.x - b.min.x).toNat) fun k _ => hplane k,
    List.length_range]

/-! ### C2: the spec-modelled `insert` -/

theorem arrayUsize_some {p : V3} {i : ℕ × ℕ × ℕ} (h : arrayUsize p = some i) :
    p.x = (i.1 : ℤ) ∧ p.y = (i.2.1 : ℤ) ∧ p.z = (i.2.2 : ℤ) := by
  obtain ⟨a, b, c⟩ := i
  by_cases hc : 0 ≤ p.x ∧ 0 ≤ p.y ∧ 0 ≤ p.z
  · rw [arrayUsize, if_pos hc] at h
    obtain ⟨h1, h2, h3⟩ := hc
    simp only [Option.some.injEq, Prod.mk.injEq] at h
    obtain ⟨ha, hb, hcc⟩ := h
    refine ⟨?_, ?_, ?_⟩ <;> simp only [] <;> omega
  · rw [arrayUsize, if_neg hc] at h
    simp at h

theorem arrayUsize_pos (p : V3) (h : 0 ≤ p.x ∧ 0 ≤ p.y ∧ 0 ≤ p.z) :
    arrayUsize p = some (p.x.toNat, p.y.toNat, p.z.toNat) := by
  unfold arrayUsize
  rw [if_pos h]

theorem vaddV3_cancel {a p1 p2 : V3} (h : vadd a p1 = vadd a p2) : p1 = p2 := by
  obtain ⟨ax, ay, az⟩ := a
  obtain ⟨x1, y1, z1⟩ := p1
  obtain ⟨x2, y2, z2⟩ := p2
  simp only [vadd, V3.mk.injEq] at h ⊢
  omega

theorem wfHeap_lsWrite {T : Type} {v : HeapVolume T} (hwf : wfHeap v)
    (i : ℕ × ℕ × ℕ) (item : T) :
    wfHeap { v with inner := lsWrite v.inner i item } := by
  obtain ⟨a, b, c⟩ := i
  obtain ⟨hlen, hrows⟩ := hwf
  cases hl : v.inner[a]? with
  | none => simp only [lsWrite, hl]; exact ⟨hlen, hrows⟩
  | some row =>
    cases hr : row[b]? with
    | none => simp only [lsWrite, hl, hr]; exact ⟨hlen, hrows⟩
    | some col =>
      simp only [lsWrite, hl, hr]
      have hrowmem : row ∈ v.inner := by
        obtain ⟨hlt, heq⟩ := List.getElem?_eq_some.mp hl
        exact heq ▸ List.getElem_mem hlt
      have hcolmem : col ∈ row := by
        obtain ⟨hlt, heq⟩ := List.getElem?_eq_some.mp hr
        exact heq ▸ List.getElem_mem hlt
      constructor
      · simpa using hlen
      · intro r hrmem
        rcases List.mem_or_eq_of_mem_set hrmem with hmem | heq
        · exact hrows r hmem
        · subst heq
          refine ⟨by simpa using (hrows row hrowmem).1, ?_⟩
          intro cl hclmem
          rcases List.mem_or_eq_of_mem_set hclmem with hmem2 | heq2
          · exact (hrows row hrowmem).2 cl hmem2
          · subst heq2
            simpa using (hrows row hrowmem).2 col hcolmem

theorem wf_contains_slot {T : Type} {v : HeapVolume T} (hwf : wfHeap v)
    {q : V3} (hq : v.bounds.contains q = true) :
    ∃ i, v.to_ls (Space.worldspace q) = some i ∧ ∃ t, lsIndex v.inner i = some t := by
  simp only [BoundingBox.contains, decide_eq_true_eq] at hq
  obtain ⟨h1, h2, h3, h4, h5, h6⟩ := hq
  have hxs : v.bounds.x_span = v.bounds.max.x - v.bounds.min.x :=
    abs_of_nonneg (by omega)
  have hys : v.bounds.y_span = v.bounds.max.y - v.bounds.min.y :=
    abs_of_nonneg (by omega)
  have hzs : v.bounds.z_span = v.bounds.max.z - v.bounds.min.z :=
    abs_of_nonneg (by omega)
  refine ⟨((q.x - v.bounds.min.x).toNat, (q.y - v.bounds.min.y).toNat,
    (q.z - v.bounds.min.z).toNat), ?_, ?_⟩
  · show arrayUsize (vsub q v.bounds.min) = _
    rw [show vsub q v.bounds.min =
      ⟨q.x - v.bounds.min.x, q.y - v.bounds.min.y, q.z - v.bounds.min.z⟩ from rfl]
    refine arrayUsize_pos _ ⟨?_, ?_, ?_⟩ <;> simp only [] <;> omega
  · have hx : (q.x - v.bounds.min.x).toNat < v.inner.length := by
      rw [hwf.1, hxs]
      omega
    have hrowmem : v.inner[(q.x - v.bounds.min.x).toNat] ∈ v.inner :=
      List.getElem_mem hx
    have hy : (q.y - v.bounds.min.y).toNat <
        (v.inner[(q.x - v.bounds.min.x).toNat]).length := by
      rw [(hwf.2 _ hrowmem).1, hys]
      omega
    have hcolmem : (v.inner[(q.x - v.bounds.min.x).toNat])[(q.y - v.bounds.min.y).toNat] ∈
        v.inner[(q.x - v.bounds.min.x).toNat] := List.getElem_mem hy
    have hz : (q.z - v.bounds.min.z).toNat <
        ((v.inner[(q.x - v.bounds.min.x).toNat])[(q.y - v.bounds.min.y).toNat]).length := by
      rw [(hwf.2 _ hrowmem).2 _ hcolmem, hzs]
      omega
    unfold lsIndex
    rw [List.getElem?_eq_getElem hx]
    simp only [Option.some_bind]
    rw [List.getElem?_eq_getElem hy]
    simp only [Option.some_bind]
    exact ⟨_, List.getElem?_eq_getElem hz⟩

theorem wf_ws_get_isSome {T : Type} {v : HeapVolume T} (hwf : wfHeap v)
    {q : V3} (hq : v.bounds.contains q = true) : ∃ t, v.ws_get q = some t := by
  obtain ⟨i, hi, t, ht⟩ := wf_contains_slot hwf hq
  refine ⟨t, ?_⟩
  unfold HeapVolume.ws_get HeapVolume.getSpace
  rw [hi]
  simpa [HeapVolume.ls_get] using ht

theorem ws_swap_bounds {T : Type} (v : HeapVolume T) (q : V3) (item : T) :
    (v.ws_swap q item).2.bounds = v.bounds := by
  cases h1 : v.to_ls (Space.worldspace q) with
  | none => simp only [HeapVolume.ws_swap, HeapVolume.swapSpace, h1]
  | some i =>
    cases h2 : v.ls_get_mut i with
    | none => simp only [HeapVolume.ws_swap, HeapVolume.swapSpace, h1, h2]
    | some old => simp only [HeapVolume.ws_swap, HeapVolume.swapSpace, h1, h2]

theorem wfHeap_ws_swap {T : Type} {v : HeapVolume T} (hwf : wfHeap v)
    (q : V3) (item : T) : wfHeap (v.ws_swap q item).2 := by
  cases h1 : v.to_ls (Space.worldspace q) with
  | none => simpa only [HeapVolume.ws_swap, HeapVolume.swapSpace, h1] using hwf
  | some i =>
    cases h2 : v.ls_get_mut i with
    | none => simpa only [HeapVolume.ws_swap, HeapVolume.swapSpace, h1, h2] using hwf
    | some old =>
      simpa only [HeapVolume.ws_swap, HeapVolume.swapSpace, h1, h2] using
        wfHeap_lsWrite hwf i item

theorem ws_swap_get_self {T : Type} {v : HeapVolume T} {q : V3} {t : T}
    (h : v.ws_get q = some t) (item : T) :
    (v.ws_swap q item).2.ws_get q = some item :=
  (swapSpace_roundtrip_aux v (Space.worldspace q) t item h).2

theorem ws_swap_get_ne {T : Type} {v : HeapVolume T} {q : V3} (item : T)
    {q' : V3} (hne : q' ≠ q) :
    (v.ws_swap q item).2.ws_get q' = v.ws_get q' := by
  cases h1 : v.to_ls (Space.worldspace q) with
  | none => simp only [HeapVolume.ws_swap, HeapVolume.swapSpace, h1]
  | some i =>
    cases h2 : v.ls_get_mut i with
    | none => simp only [HeapVolume.ws_swap, HeapVolume.swapSpace, h1, h2]
    | some old =>
      simp only [HeapVolume.ws_swap, HeapVolume.swapSpace, h1, h2]
      unfold HeapVolume.ws_get HeapVolume.getSpace
      rw [to_ls_inner_update]
      cases h3 : v.to_ls (Space.worldspace q') with
      | none => rfl
      | some j =>
        simp only [Option.some_bind, HeapVolume.ls_get]
        have hij : i ≠ j := by
          intro he
          subst he
          have e1 := arrayUsize_some (show arrayUsize (vsub q v.bounds.min) = some i from h1)
          have e2 := arrayUsize_some (show arrayUsize (vsub q' v.bounds.min) = some i from h3)
          apply hne
          obtain ⟨qx, qy, qz⟩ := q
          obtain ⟨qx', qy', qz'⟩ := q'
          simp only [vsub] at e1 e2
          simp only [V3.mk.injEq]
          omega
        exact lsIndex_lsWrite_ne _ item hij

theorem insert_target_contained {sb ob : BoundingBox} {at_ p : V3}
    (h1 : sb.contains (vadd at_ ob.min) = true)
    (h2 : sb.contains (vadd at_ ob.max) = true)
    (hp : ob.contains p = true) : sb.contains (vadd at_ p) = true := by
  simp only [BoundingBox.contains, vadd, decide_eq_true_eq] at h1 h2 hp ⊢
  omega

theorem insertLoop_spec {T : Type} (other : HeapVolume T) (at_ : V3)
    (SB : BoundingBox)
    (htgt : ∀ p, other.bounds.contains p = true → SB.contains (vadd at_ p) = true)
    (hsrc : ∀ p, other.bounds.contains p = true → ∃ t, other.ws_get p = some t) :
    ∀ L : List V3, L.Nodup → (∀ p ∈ L, other.bounds.contains p = true) →
      ∀ acc : HeapVolume T, acc.bounds = SB → wfHeap acc →
        (insertLoop other at_ L acc).bounds = SB ∧
        wfHeap (insertLoop other at_ L acc) ∧
        (∀ p ∈ L, (insertLoop other at_ L acc).ws_get (vadd at_ p) = other.ws_get p) ∧
        (∀ q : V3, (∀ p ∈ L, vadd at_ p ≠ q) →
          (insertLoop other at_ L acc).ws_get q = acc.ws_get q) := by
  intro L
  induction L with
  | nil =>
    intro _ _ acc hb hwf
    exact ⟨hb, hwf, by simp, fun q _ => rfl⟩
  | cons p L ih =>
    intro hnd hcont acc hb hwf
    have hpc : other.bounds.contains p = true := hcont p (by simp)
    obtain ⟨tv, htv⟩ := hsrc p hpc
    have htgtp : SB.contains (vadd at_ p) = true := htgt p hpc
    obtain ⟨t0, ht0⟩ := wf_ws_get_isSome hwf (q := vadd at_ p) (hb ▸ htgtp)
    have hstep : insertLoop other at_ (p :: L) acc =
        insertLoop other at_ L ((acc.ws_swap (vadd at_ p) tv).2) := by
      unfold insertLoop
      simp [List.foldl_cons, htv]
    have hb' : ((acc.ws_swap (vadd at_ p) tv).2).bounds = SB := by
      rw [ws_swap_bounds, hb]
    have hwf' : wfHeap ((acc.ws_swap (vadd at_ p) tv).2) := wfHeap_ws_swap hwf _ _
    have hwrite : ((acc.ws_swap (vadd at_ p) tv).2).ws_get (vadd at_ p) = some tv :=
      ws_swap_get_self ht0 tv
    have hnd' : L.Nodup := (List.nodup_cons.mp hnd).2
    have hpnotin : p ∉ L := (List.nodup_cons.mp hnd).1
    have hcont' : ∀ x ∈ L, other.bounds.contains x = true :=
      fun x hx => hcont x (by simp [hx])
    obtain ⟨rb, rwf, rcopy, rpres⟩ :=
      ih hnd' hcont' ((acc.ws_swap (vadd at_ p) tv).2) hb' hwf'
    rw [hstep]
    refine ⟨rb, rwf, ?_, ?_⟩
    · intro x hx
      rcases List.mem_cons.mp hx with hxp | hxL
      · subst hxp
        rw [rpres (vadd at_ x) ?_]
        · rw [hwrite, htv]
        · intro y hy hcontr
          exact hpnotin (vaddV3_cancel hcontr ▸ hy)
      · exact rcopy x hxL
    · intro q hq'
      rw [rpres q fun y hy => hq' y (by simp [hy])]
      exact ws_swap_get_ne tv fun he => hq' p (by simp) he.symm

/-- C2 (spec-modelled): `insert(at, other)` pre-validates that
`at + other.min` and `at + other.max` both lie inside `self`'s region; if
they do not, it fails with `VolumeEscapesBounds` and returns no mutated
volume (the caller's volume is untouched — all-or-nothing); on success every
element of `other` is copied into the result at its position offset by
`at`. -/
theorem insert_all_or_nothing :
    (∀ (T : Type) (self : HeapVolume T) (at_ : V3) (other : HeapVolume T),
      ¬(self.bounds.contains (vadd at_ other.bounds.min) = true ∧
        self.bounds.contains (vadd at_ other.bounds.max) = true) →
      self.insert at_ other = Except.error InsertError.volumeEscapesBounds) ∧
    (∀ (T : Type) (self : HeapVolume T) (at_ : V3) (other : HeapVolume T),
      wfHeap self → wfHeap other →
      self.bounds.contains (vadd at_ other.bounds.min) = true →
      self.bounds.contains (vadd at_ other.bounds.max) = true →
      ∃ res, self.insert at_ other = Except.ok res ∧ res.bounds = self.bounds ∧
        ∀ p : V3, other.bounds.contains p = true →
          res.ws_get (vadd at_ p) = other.ws_get p) := by
  constructor
  · intro T self at_ other h
    unfold HeapVolume.insert
    rw [if_neg h]
  · intro T self at_ other hwfS hwfO h1 h2
    have hins : self.insert at_ other =
        Except.ok (insertLoop other at_ (canonicalPositions other.bounds) self) := by
      unfold HeapVolume.insert
      rw [if_pos ⟨h1, h2⟩]
    obtain ⟨hb, hwf, hcopy, _⟩ :=
      insertLoop_spec other at_ self.bounds
        (fun p hp => insert_target_contained h1 h2 hp)
        (fun p hp => wf_ws_get_isSome hwfO hp)
        (canonicalPositions other.bounds) (nodup_canonicalPositions _)
        (fun p hp => (mem_canonicalPositions _ p).mp hp)
        self rfl hwfS
    exact ⟨_, hins, hb,
      fun p hp => hcopy p ((mem_canonicalPositions _ p).mpr hp)⟩

/-- Witness for `insert_all_or_nothing`: a 1-cell volume inserted into a
2-cube succeeds and copies its element; shifting it out of range yields
`VolumeEscapesBounds`. -/
theorem insert_all_or_nothing_witness :
    (∃ res, (HeapVolume.new (0 : ℤ) (BoundingBox.new ⟨0, 0, 0⟩ ⟨2, 2, 2⟩)).insert
        ⟨0, 0, 0⟩ (HeapVolume.new 5 (BoundingBox.new ⟨0, 0, 0⟩ ⟨1, 1, 1⟩)) =
          Except.ok res ∧
      res.bounds = (HeapVolume.new (0 : ℤ) (BoundingBox.new ⟨0, 0, 0⟩ ⟨2, 2, 2⟩)).bounds ∧
      ∀ p : V3,
        (HeapVolume.new (5 : ℤ) (BoundingBox.new ⟨0, 0, 0⟩ ⟨1, 1, 1⟩)).bounds.contains p =
          true →
        res.ws_get (vadd ⟨0, 0, 0⟩ p) =
          (HeapVolume.new (5 : ℤ) (BoundingBox.new ⟨0, 0, 0⟩ ⟨1, 1, 1⟩)).ws_get p) ∧
    (HeapVolume.new (0 : ℤ) (BoundingBox.new ⟨0, 0, 0⟩ ⟨2, 2, 2⟩)).insert ⟨5, 5, 5⟩
        (HeapVolume.new 5 (BoundingBox.new ⟨0, 0, 0⟩ ⟨1, 1, 1⟩)) =
      Except.error InsertError.volumeEscapesBounds :=
  ⟨insert_all_or_nothing.2 ℤ _ _ _ (by decide) (by decide) (by decide) (by decide),
   insert_all_or_nothing.1 ℤ _ _ _ (by decide)⟩

/-! ### C3: the bounding-box iterator emits the canonical enumeration -/

theorem rowSuffix_ge (b : BoundingBox) {i : ℕ} (j k : ℕ)
    (h : (b.max.x - b.min.x).toNat ≤ i) : rowSuffix b i j k = [] := by
  simp [rowSuffix, Nat.sub_eq_zero_of_le h]

theorem planeSuffix_ge (b : BoundingBox) {j : ℕ} (k : ℕ)
    (h : (b.max.y - b.min.y).toNat ≤ j) : planeSuffix b j k = [] := by
  simp [planeSuffix, Nat.sub_eq_zero_of_le h]

theorem boxSuffix_ge (b : BoundingBox) {k : ℕ}
    (h : (b.max.z - b.min.z).toNat ≤ k) : boxSuffix b k = [] := by
  simp [boxSuffix, Nat.sub_eq_zero_of_le h]

theorem rowSuffix_peel (b : BoundingBox) {i : ℕ} (j k : ℕ)
    (h : i < (b.max.x - b.min.x).toNat) :
    rowSuffix b i j k = posAt b i j k :: rowSuffix b (i + 1) j k := by
  unfold rowSuffix
  rw [show (b.max.x - b.min.x).toNat - i = ((b.max.x - b.min.x).toNat - (i + 1)) + 1
    from by omega, List.range'_succ]
  rfl

theorem planeSuffix_peel (b : BoundingBox) {j : ℕ} (k : ℕ)
    (h : j < (b.max.y - b.min.y).toNat) :
    planeSuffix b j k = rowSuffix b 0 j k ++ planeSuffix b (j + 1) k := by
  unfold planeSuffix rowSuffix
  rw [show (b.max.y - b.min.y).toNat - j = ((b.max.y - b.min.y).toNat - (j + 1)) + 1
    from by omega, List.range'_succ, List.flatMap_cons]
  congr 1
  rw [List.range_eq_range']
  simp

theorem boxSuffix_peel (b : BoundingBox) {k : ℕ}
    (h : k < (b.max.z - b.min.z).toNat) :
    boxSuffix b k = planeSuffix b 0 k ++ boxSuffix b (k + 1) := by
  unfold boxSuffix planeSuffix
  rw [show (b.max.z - b.min.z).toNat - k = ((b.max.z - b.min.z).toNat - (k + 1)) + 1
    from by omega, List.range'_succ, List.flatMap_cons]
  congr 1
  rw [List.range_eq_range']
  simp

theorem sfx_zero (b : BoundingBox)
    (hy : 0 < (b.max.y - b.min.y).toNat) (hz : 0 < (b.max.z - b.min.z).toNat) :
    sfx b 0 0 0 = canonicalPositions b := by
  have hcanon : canonicalPositions b = boxSuffix b 0 := by
    unfold canonicalPositions boxSuffix posAt
    rw [List.range_eq_range']
    simp
  rw [hcanon, boxSuffix_peel b hz, planeSuffix_peel b 0 hy]
  unfold sfx
  rw [List.append_assoc]

theorem bbIterNext_done {s : BoundingBoxIterator}
    (h : s.bounding_box.max.z ≤ s.current.z) : (bbIterNext s).1 = none := by
  simp only [bbIterNext]
  rw [if_pos (by omega)]

theorem bbSteps_done (n : ℕ) (s : BoundingBoxIterator)
    (h : s.bounding_box.max.z ≤ s.current.z) : bbSteps n s = [] := by
  cases n with
  | zero => rfl
  | succ m =>
    rcases hbb : bbIterNext s with ⟨o, s'⟩
    have h1 : o = none := by
      have h2 := bbIterNext_done h
      rw [hbb] at h2
      exact h2
    subst h1
    simp [bbSteps, hbb]

theorem bbIterNext_stepA (b : BoundingBox) (i j k : ℕ)
    (hk : b.min.z + (k : ℤ) < b.max.z) (hi : b.min.x + (i : ℤ) + 1 < b.max.x) :
    bbIterNext (stateAt b i j k) = (some (posAt b i j k), stateAt b (i + 1) j k) := by
  simp only [bbIterNext, stateAt, posAt]
  rw [if_neg (by omega), if_neg (by omega)]
  simp only [Prod.mk.injEq, Option.some.injEq, BoundingBoxIterator.mk.injEq,
    V3.mk.injEq, true_and, and_true]
  first
  | trivial
  | omega

theorem bbIterNext_stepB1 (b : BoundingBox) (i j k : ℕ)
    (hk : b.min.z + (k : ℤ) < b.max.z) (hi : b.max.x ≤ b.min.x + (i : ℤ) + 1)
    (hj : b.min.y + (j : ℤ) + 1 < b.max.y) :
    bbIterNext (stateAt b i j k) = (some (posAt b i j k), stateAt b 0 (j + 1) k) := by
  simp only [bbIterNext, stateAt, posAt]
  rw [if_neg (by omega), if_pos (by omega), if_neg (by omega)]
  simp only [Prod.mk.injEq, Option.some.injEq, BoundingBoxIterator.mk.injEq,
    V3.mk.injEq, true_and, and_true]
  first
  | trivial
  | omega

theorem bbIterNext_stepB2 (b : BoundingBox) (i j k : ℕ)
    (hk : b.min.z + (k : ℤ) < b.max.z) (hi : b.max.x ≤ b.min.x + (i : ℤ) + 1)
    (hj : b.max.y ≤ b.min.y + (j : ℤ) + 1) :
    bbIterNext (stateAt b i j k) = (some (posAt b i j k), stateAt b 0 0 (k + 1)) := by
  simp only [bbIterNext, stateAt, posAt]
  rw [if_neg (by omega), if_pos (by omega), if_pos (by omega)]
  simp only [Prod.mk.injEq, Option.some.injEq, BoundingBoxIterator.mk.injEq,
    V3.mk.injEq, true_and, and_true]
  first
  | trivial
  | omega

theorem sfx_stepA (b : BoundingBox) {i : ℕ} (j k : ℕ)
    (hi1 : i + 1 < (b.max.x - b.min.x).toNat) :
    sfx b i j k = posAt b i j k :: sfx b (i + 1) j k := by
  unfold sfx
  rw [rowSuffix_peel b j k (by omega)]
  rfl

theorem sfx_stepB1 (b : BoundingBox) {i j : ℕ} (k : ℕ)
    (hi : i < (b.max.x - b.min.x).toNat)
    (hi1 : (b.max.x - b.min.x).toNat ≤ i + 1)
    (hj1 : j + 1 < (b.max.y - b.min.y).toNat) :
    sfx b i j k = posAt b i j k :: sfx b 0 (j + 1) k := by
  unfold sfx
  rw [rowSuffix_peel b j k hi, rowSuffix_ge b j k (by omega),
    planeSuffix_peel b k hj1]
  simp [List.append_assoc]

theorem sfx_stepB2 (b : BoundingBox) {i j k : ℕ}
    (hi : i < (b.max.x - b.min.x).toNat)
    (hi1 : (b.max.x - b.min.x).toNat ≤ i + 1)
    (hj : (b.max.y - b.min.y).toNat ≤ j + 1)
    (hy : 0 < (b.max.y - b.min.y).toNat)
    (hk1 : k + 1 < (b.max.z - b.min.z).toNat) :
    sfx b i j k = posAt b i j k :: sfx b 0 0 (k + 1) := by
  unfold sfx
  rw [rowSuffix_peel b j k hi, rowSuffix_ge b j k (by omega),
    planeSuffix_ge b k hj, boxSuffix_peel b hk1, planeSuffix_peel b (k + 1) hy]
  simp [List.append_assoc]

theorem sfx_last (b : BoundingBox) {i j k : ℕ}
    (hi : i < (b.max.x - b.min.x).toNat)
    (hi1 : (b.max.x - b.min.x).toNat ≤ i + 1)
    (hj : (b.max.y - b.min.y).toNat ≤ j + 1)
    (hk : (b.max.z - b.min.z).toNat ≤ k + 1) :
    sfx b i j k = [posAt b i j k] := by
  unfold sfx
  rw [rowSuffix_peel b j k hi, rowSuffix_ge b j k (by omega),
    planeSuffix_ge b k hj, boxSuffix_ge b hk]
  simp

theorem sfx_length_pos (b : BoundingBox) {i : ℕ} (j k : ℕ)
    (hi : i < (b.max.x - b.min.x).toNat) : 0 < (sfx b i j k).length := by
  unfold sfx rowSuffix
  simp only [List.length_append, List.length_map, List.length_range']
  omega

theorem bbSteps_stateAt (b : BoundingBox) :
    ∀ n i j k : ℕ, i < (b.max.x - b.min.x).toNat →
      j < (b.max.y - b.min.y).toNat → k < (b.max.z - b.min.z).toNat →
      (sfx b i j k).length ≤ n →
      bbSteps n (stateAt b i j k) = sfx b i j k := by
  intro n
  induction n with
  | zero =>
    intro i j k hi hj hk hlen
    exfalso
    have hpos := sfx_length_pos b j k hi
    omega
  | succ n ih =>
    intro i j k hi hj hk hlen
    by_cases hA : i + 1 < (b.max.x - b.min.x).toNat
    · have hnext := bbIterNext_stepA b i j k (by omega) (by omega)
      have hstep : bbSteps (n + 1) (stateAt b i j k) =
          posAt b i j k :: bbSteps n (stateAt b (i + 1) j k) := by
        simp only [bbSteps, hnext]
      rw [hstep, sfx_stepA b j k hA]
      congr 1
      apply ih (i + 1) j k hA hj hk
      rw [sfx_stepA b j k hA] at hlen
      simpa using hlen
    · by_cases hB : j + 1 < (b.max.y - b.min.y).toNat
      · have hnext := bbIterNext_stepB1 b i j k (by omega) (by omega) (by omega)
        have hstep : bbSteps (n + 1) (stateAt b i j k) =
            posAt b i j k :: bbSteps n (stateAt b 0 (j + 1) k) := by
          simp only [bbSteps, hnext]
        rw [hstep, sfx_stepB1 b k hi (by omega) hB]
        congr 1
        apply ih 0 (j + 1) k (by omega) hB hk
        rw [sfx_stepB1 b k hi (by omega) hB] at hlen
        simpa using hlen
      · by_cases hC : k + 1 < (b.max.z - b.min.z).toNat
        · have hnext := bbIterNext_stepB2 b i j k (by omega) (by omega) (by omega)
          have hstep : bbSteps (n + 1) (stateAt b i j k) =
              posAt b i j k :: bbSteps n (stateAt b 0 0 (k + 1)) := by
            simp only [bbSteps, hnext]
          rw [hstep, sfx_stepB2 b hi (by omega) (by omega) (by omega) hC]
          congr 1
          apply ih 0 0 (k + 1) (by omega) (by omega) hC
          rw [sfx_stepB2 b hi (by omega) (by omega) (by omega) hC] at hlen
          simpa using hlen
        · have hnext := bbIterNext_stepB2 b i j k (by omega) (by omega) (by omega)
          have hstep : bbSteps (n + 1) (stateAt b i j k) =
              posAt b i j k :: bbSteps n (stateAt b 0 0 (k + 1)) := by
            simp only [bbSteps, hnext]
          rw [hstep, sfx_last b hi (by omega) (by omega) (by omega)]
          congr 1
          apply bbSteps_done
          simp only [stateAt, posAt]
          omega

/-- C3 (amended): for every box all of whose spans are nonzero, the
bounding-box iterator emits exactly the canonical enumeration — every
contained position exactly once, `capacity()` positions in total, with no
duplicates, X varying fastest and Z slowest — and any box with zero Z span
emits nothing, matching its zero capacity.  (A box with zero X or Y span but
nonzero Z span is excluded: there the iterator emits spurious positions, see
the counterexample.) -/
theorem bb_iteration_canonical :
    (∀ b : BoundingBox,
      0 < b.max.x - b.min.x → 0 < b.max.y - b.min.y → 0 < b.max.z - b.min.z →
      (∀ n, (canonicalPositions b).length ≤ n →
        bbSteps n b.intoIter = canonicalPositions b) ∧
      (canonicalPositions b).length = b.capacity.toNat ∧
      (canonicalPositions b).Nodup ∧
      (∀ p : V3, p ∈ canonicalPositions b ↔ b.contains p = true)) ∧
    (∀ b : BoundingBox, b.max.z = b.min.z →
      b.capacity = 0 ∧ canonicalPositions b = [] ∧
      ∀ n, bbSteps n b.intoIter = []) := by
  constructor
  · intro b hx hy hz
    have hx' : 0 < (b.max.x - b.min.x).toNat := by omega
    have hy' : 0 < (b.max.y - b.min.y).toNat := by omega
    have hz' : 0 < (b.max.z - b.min.z).toNat := by omega
    refine ⟨?_, ?_, nodup_canonicalPositions b, fun p => mem_canonicalPositions b p⟩
    · intro n hn
      have hinit : b.intoIter = stateAt b 0 0 0 := by
        simp [BoundingBox.intoIter, stateAt, posAt]
      rw [hinit, ← sfx_zero b hy' hz']
      apply bbSteps_stateAt b n 0 0 0 hx' hy' hz'
      rw [sfx_zero b hy' hz']
      exact hn
    · rw [length_canonicalPositions]
      unfold BoundingBox.capacity
      obtain ⟨nx, hnx⟩ : ∃ n : ℕ, b.max.x - b.min.x = (n : ℤ) :=
        ⟨(b.max.x - b.min.x).toNat, by omega⟩
      obtain ⟨ny, hny⟩ : ∃ n : ℕ, b.max.y - b.min.y = (n : ℤ) :=
        ⟨(b.max.y - b.min.y).toNat, by omega⟩
      obtain ⟨nz, hnz⟩ : ∃ n : ℕ, b.max.z - b.min.z = (n : ℤ) :=
        ⟨(b.max.z - b.min.z).toNat, by omega⟩
      rw [hnx, hny, hnz]
      simp only [← Nat.cast_mul, Int.toNat_natCast]
      ring
  · intro b hzz
    refine ⟨by unfold BoundingBox.capacity; rw [hzz]; ring, ?_, ?_⟩
    · unfold canonicalPositions
      rw [hzz]
      simp
    · intro n
      apply bbSteps_done
      simp only [BoundingBox.intoIter]
      omega

/-- Witness for `bb_iteration_canonical` on the concrete box
`[0,0,0]..[2,2,2]`. -/
theorem bb_iteration_canonical_witness :
    bbSteps 9 (BoundingBox.new ⟨0, 0, 0⟩ ⟨2, 2, 2⟩).intoIter =
      canonicalPositions (BoundingBox.new ⟨0, 0, 0⟩ ⟨2, 2, 2⟩) ∧
    (canonicalPositions (BoundingBox.new ⟨0, 0, 0⟩ ⟨2, 2, 2⟩)).length =
      (BoundingBox.new ⟨0, 0, 0⟩ ⟨2, 2, 2⟩).capacity.toNat ∧
    bbSteps 3 (BoundingBox.new ⟨0, 0, 0⟩ ⟨1, 1, 0⟩).intoIter = [] := by
  have h := bb_iteration_canonical.1 (BoundingBox.new ⟨0, 0, 0⟩ ⟨2, 2, 2⟩)
    (by decide) (by decide) (by decide)
  have h2 := bb_iteration_canonical.2 (BoundingBox.new ⟨0, 0, 0⟩ ⟨1, 1, 0⟩) (by decide)
  exact ⟨h.1 9 (by decide), h.2.1, h2.2.2 3⟩

/-- C3 counterexample: the degenerate box `[0,0,0]..[0,1,1]` has capacity
`0` and contains nothing, yet its iterator still emits the position
`[0,0,0]` — one position, not `capacity()` positions, and not a contained
one. -/
theorem bb_iterator_degenerate_counterexample :
    (BoundingBox.new ⟨0, 0, 0⟩ ⟨0, 1, 1⟩).capacity = 0 ∧
    bbSteps 5 (BoundingBox.new ⟨0, 0, 0⟩ ⟨0, 1, 1⟩).intoIter = [⟨0, 0, 0⟩] ∧
    (BoundingBox.new ⟨0, 0, 0⟩ ⟨0, 1, 1⟩).contains ⟨0, 0, 0⟩ = false := by
  decide
